import Mathlib

/-!
Formal model of the declarative credential-and-pipeline provisioning design
documented for this repository (a Jenkins credentials/pipeline setup document).
The repository's source is a plain-text checklist; the design documentation
describes its minimal automatable equivalent: a Declaration Loader, a
Reconciler producing a ReconciliationPlan of Create/Update/Skip operations,
and a Remote Client Adapter. The definitions below embed that design; the
concrete declaration data (credential ids, job name, repository URL, branch
specifier, script path, plugin list) is taken from the source document
`jenkins_setup.py` itself.
-/

/-- Modelled from the spec: the kind of a credential
(Username with password, Secret file, Secret text). -/
inductive CredentialKind
  | UsernamePassword
  | SecretFile
  | SecretText
deriving DecidableEq

/-- Modelled from the spec: the scope of a credential (Global or System). -/
inductive CredentialScope
  | GlobalScope
  | SystemScope
deriving DecidableEq

/-- Modelled from the spec: a declared credential
{id, kind, scope, payloadRef}; the payload itself is an opaque reference. -/
structure CredentialSpec where
  id : String
  kind : CredentialKind
  scope : CredentialScope
  payloadRef : String
deriving DecidableEq

/-- Modelled from the spec: the declared pipeline job
{name, repositoryUrl, branch, scriptPath, credentialId, requiredCapabilities}. -/
structure PipelineJobSpec where
  name : String
  repositoryUrl : String
  branch : String
  scriptPath : String
  credentialId : String
  requiredCapabilities : List String
deriving DecidableEq

/-- Modelled from the spec: an observed (remote) credential as reported by the
adapter: its id, and whether the adapter reports a content/metadata mismatch
it cannot introspect (secret payloads are opaque). -/
structure ObservedCredential where
  id : String
  mismatch : Bool
deriving DecidableEq

/-- Modelled from the spec: an observed (remote) pipeline job. -/
structure ObservedJob where
  name : String
  repositoryUrl : String
  branch : String
  scriptPath : String
deriving DecidableEq

/-- Modelled from the spec: the three operation kinds of a ReconciliationPlan. -/
inductive OpKind
  | Create
  | Update
  | Skip
deriving DecidableEq

/-- Modelled from the spec: one entry of a ReconciliationPlan; an operation
over a CredentialSpec or over the PipelineJobSpec. -/
inductive PlanEntry
  | credOp (spec : CredentialSpec) (op : OpKind)
  | jobOp (spec : PipelineJobSpec) (op : OpKind)
deriving DecidableEq

/-- The operation kind of a plan entry. -/
def entryOp : PlanEntry → OpKind
  | .credOp _ op => op
  | .jobOp _ op => op

/-- Whether a plan entry is an operation over a credential. -/
def isCredOp : PlanEntry → Prop
  | .credOp _ _ => True
  | .jobOp _ _ => False

/-- Whether a plan entry is the operation over the pipeline job. -/
def isJobOp : PlanEntry → Prop
  | .credOp _ _ => False
  | .jobOp _ _ => True

/-- Modelled from the spec: a ReconciliationPlan is an ordered sequence of
operations over the declared specs. -/
abbrev ReconciliationPlan := List PlanEntry

/-- Modelled from the spec: the error taxonomy (ValidationError enumerating
all violations, ReferenceError, CapabilityError, RemoteError,
PartialApplyError carrying committed vs pending operations). -/
inductive ReconError
  | validationError (violations : List String)
  | referenceError
  | capabilityError
  | remoteError
  | partialApplyError (committed pending : List PlanEntry)
deriving DecidableEq

/-- Modelled from the spec: the observed remote state snapshot used by one
reconciliation run (observed credentials and the observed job, if any). -/
structure ObservedState where
  creds : List ObservedCredential
  job : Option ObservedJob
deriving DecidableEq

/-- Modelled from the spec: the Reconciler's per-credential decision: no
observed credential shares the id, Create; observed with mismatch, Update
(secret equality cannot be verified, so overwrite); otherwise Skip. -/
def planCredential (c : CredentialSpec) (oc : List ObservedCredential) : OpKind :=
  match oc.find? (fun o => o.id == c.id) with
  | none => .Create
  | some o => if o.mismatch then .Update else .Skip

/-- Whether an observed job's repositoryUrl, branch and scriptPath all match
the declared job's. -/
def jobMatches (dj : PipelineJobSpec) (o : ObservedJob) : Bool :=
  o.repositoryUrl == dj.repositoryUrl && o.branch == dj.branch &&
    o.scriptPath == dj.scriptPath

/-- Modelled from the spec: the Reconciler's job decision: compare by name;
absent, Create; present with differing repositoryUrl/branch/scriptPath,
Update; else Skip. -/
def planJob (dj : PipelineJobSpec) (oj : Option ObservedJob) : OpKind :=
  match oj with
  | none => .Create
  | some o =>
    if o.name == dj.name then (if jobMatches dj o then .Skip else .Update)
    else .Create

/-- Modelled from the spec: the dangling-reference check: the declared job's
credentialId must match a declared CredentialSpec, else ReferenceError. -/
def validateReferences (dc : List CredentialSpec) (dj : PipelineJobSpec) :
    Except ReconError Unit :=
  if dc.any (fun c => c.id == dj.credentialId) then .ok () else .error .referenceError

/-- The credential portion of a plan, in declaration order. -/
def planCreds (dc : List CredentialSpec) (oc : List ObservedCredential) :
    List PlanEntry :=
  dc.map (fun c => .credOp c (planCredential c oc))

/-- Modelled from the spec: the Reconciler. Given declared credentials, the
declared job, and the observed state, fail fast with ReferenceError on a
dangling credentialId (no plan at all), else produce the plan: all credential
operations first (declaration order), then the single job operation. -/
def plan (dc : List CredentialSpec) (dj : PipelineJobSpec)
    (oc : List ObservedCredential) (oj : Option ObservedJob) :
    Except ReconError ReconciliationPlan :=
  match validateReferences dc dj with
  | .error e => .error e
  | .ok _ => .ok (planCreds dc oc ++ [.jobOp dj (planJob dj oj)])

/-- Modelled from the spec: the adapter's applyCredential: overwrite the
remote credential with the declared one; afterwards the remote credential
with that id exists and reports no mismatch. -/
def applyCredential (s : ObservedState) (c : CredentialSpec) : ObservedState :=
  { s with creds := s.creds.filter (fun o => o.id != c.id) ++ [⟨c.id, false⟩] }

/-- The observed view of a declared job after a successful applyJob. -/
def observedOfJob (dj : PipelineJobSpec) : ObservedJob :=
  ⟨dj.name, dj.repositoryUrl, dj.branch, dj.scriptPath⟩

/-- Modelled from the spec: the adapter's applyJob: the remote job afterwards
has the declared name, repositoryUrl, branch and scriptPath. -/
def applyJob (s : ObservedState) (dj : PipelineJobSpec) : ObservedState :=
  { s with job := some (observedOfJob dj) }

/-- Modelled from the spec: executing one plan entry against the remote
state: Skip performs no call; Create/Update call the adapter's apply. -/
def applyEntry (s : ObservedState) (e : PlanEntry) : ObservedState :=
  match e with
  | .credOp _ .Skip => s
  | .credOp c _ => applyCredential s c
  | .jobOp _ .Skip => s
  | .jobOp j _ => applyJob s j

/-- Modelled from the spec: executing a whole plan in order (every remote
call succeeding). -/
def applyPlan (p : ReconciliationPlan) (s : ObservedState) : ObservedState :=
  p.foldl applyEntry s

/-- Modelled from the spec: the declaration-level invariants the Loader
checks and enumerates: branch and scriptPath are non-empty. (The
dangling-credentialId invariant is classified as ReferenceError by the error
taxonomy and is checked by `validateReferences`.) -/
def declarationViolations (dj : PipelineJobSpec) : List String :=
  (if dj.branch = "" then ["branch is empty"] else []) ++
    (if dj.scriptPath = "" then ["scriptPath is empty"] else [])

/-- Modelled from the spec: the Declaration Loader: produce the validated
credentials and the single job, or fail with one ValidationError enumerating
every violated invariant. Pure: no side effects. -/
def loadDeclaration (dc : List CredentialSpec) (dj : PipelineJobSpec) :
    Except ReconError (List CredentialSpec × PipelineJobSpec) :=
  match declarationViolations dj with
  | [] => .ok (dc, dj)
  | vs => .error (.validationError vs)

/-- Modelled from the spec: the capability pre-flight check: every capability
the job requires must be reported present by the adapter, else
CapabilityError. -/
def validateCapabilities (dj : PipelineJobSpec) (caps : List String) :
    Except ReconError Unit :=
  if dj.requiredCapabilities.all (fun c => caps.contains c) then .ok ()
  else .error .capabilityError

/-- Modelled from the spec: executing a plan entry by entry against the
remote state, where `ok` tells whether each non-Skip remote call succeeds.
On a failed call: if a non-Skip operation already committed, fail with
PartialApplyError carrying the committed and pending operations; otherwise
fail with RemoteError. Returns the remote state reached. -/
def applyLoop (ok : PlanEntry → Bool) :
    List PlanEntry → List PlanEntry → ObservedState →
    Except ReconError Unit × ObservedState
  | [], _, s => (.ok (), s)
  | e :: rest, committed, s =>
    if entryOp e = .Skip then applyLoop ok rest (committed ++ [e]) s
    else if ok e then applyLoop ok rest (committed ++ [e]) (applyEntry s e)
    else if committed.any (fun c => entryOp c != .Skip) then
      (.error (.partialApplyError committed (e :: rest)), s)
    else (.error .remoteError, s)

/-- Modelled from the spec: one full run of the command surface:
Loader validation, capability check, reconciliation, then apply. Returns the
run result and the remote state after the run (unchanged on pre-flight
failure). -/
def run (dc : List CredentialSpec) (dj : PipelineJobSpec) (caps : List String)
    (ok : PlanEntry → Bool) (s : ObservedState) :
    Except ReconError ReconciliationPlan × ObservedState :=
  match loadDeclaration dc dj with
  | .error e => (.error e, s)
  | .ok _ =>
    match validateCapabilities dj caps with
    | .error e => (.error e, s)
    | .ok _ =>
      match plan dc dj s.creds s.job with
      | .error e => (.error e, s)
      | .ok p =>
        match applyLoop ok p [] s with
        | (.ok _, s') => (.ok p, s')
        | (.error e, s') => (.error e, s')

/-- Modelled from the spec: the exit code of a run: 0 on full success, 1 on
validation/reference error, 2 on partial application failure. The taxonomy
classes the design leaves without an assigned code (CapabilityError,
RemoteError with nothing committed) receive their own distinct codes. -/
def exitCode : Except ReconError ReconciliationPlan → Nat
  | .ok _ => 0
  | .error (.validationError _) => 1
  | .error .referenceError => 1
  | .error .capabilityError => 3
  | .error .remoteError => 4
  | .error (.partialApplyError _ _) => 2

/-- Modelled from the spec: the errors that must abort before any remote
mutation (pre-flight). -/
def preflightError : ReconError → Prop
  | .validationError _ => True
  | .referenceError => True
  | .capabilityError => True
  | _ => False

/-- The declared GitHub credential of the scenario: id github-credentials,
kind Username with password (from the source document's credentials
section). -/
def githubCredential : CredentialSpec :=
  ⟨"github-credentials", .UsernamePassword, .GlobalScope, "github-personal-access-token"⟩

/-- The declared pipeline job of the scenario: name myapp-production-deploy,
credentialId github-credentials, branch main. -/
def deployJob : PipelineJobSpec :=
  ⟨"myapp-production-deploy", "https://github.com/ogegak2003/myapp.git",
    "main", "Jenkinsfile", "github-credentials", []⟩

/-- The three credentials the source document declares, in document order:
github-credentials (Username with password), dockerhub-creds (Username with
password), kube-config (Secret file). -/
def documentCredentials : List CredentialSpec :=
  [⟨"github-credentials", .UsernamePassword, .GlobalScope, "github-personal-access-token"⟩,
   ⟨"dockerhub-creds", .UsernamePassword, .GlobalScope, "dockerhub-access-token"⟩,
   ⟨"kube-config", .SecretFile, .GlobalScope, "kubeconfig-file"⟩]

/-- The pipeline job the source document configures: name
myapp-production-deploy, repository URL, branch specifier and script path as
written, selecting credential github-credentials, with the listed plugins as
required capabilities. -/
def documentJob : PipelineJobSpec :=
  ⟨"myapp-production-deploy", "https://github.com/ogegak2003/myapp.git",
    "*/main", "Jenkinsfile", "github-credentials",
    ["Docker Pipeline", "Kubernetes", "Slack Notification", "OWASP Dependency-Check"]⟩

/-- A malformed declaration: the scenario job with its branch left empty,
violating a Loader invariant. -/
def emptyBranchJob : PipelineJobSpec :=
  ⟨"myapp-production-deploy", "https://github.com/ogegak2003/myapp.git",
    "", "Jenkinsfile", "github-credentials", []⟩

/-- C6: the scenario declaration (one credential github-credentials of kind
UsernamePassword, one job myapp-production-deploy referencing it, branch
main), planned against an empty observed state, yields exactly
[Create(github-credentials), Create(myapp-production-deploy)] in that
order. -/
theorem scenario_empty_state_plan :
    plan [githubCredential] deployJob [] none =
      .ok [PlanEntry.credOp githubCredential .Create,
           PlanEntry.jobOp deployJob .Create] := by
  rfl

/-- C2: the Reconciler is deterministic: two runs of `plan` on equal declared
states and equal observed states yield the same ReconciliationPlan. -/
theorem plan_deterministic (dc₁ dc₂ : List CredentialSpec)
    (dj₁ dj₂ : PipelineJobSpec) (oc₁ oc₂ : List ObservedCredential)
    (oj₁ oj₂ : Option ObservedJob)
    (hdc : dc₁ = dc₂) (hdj : dj₁ = dj₂) (hoc : oc₁ = oc₂) (hoj : oj₁ = oj₂) :
    plan dc₁ dj₁ oc₁ oj₁ = plan dc₂ dj₂ oc₂ oj₂ := by
  subst hdc hdj hoc hoj; rfl

/-- Witness for C2 at the scenario inputs. -/
theorem plan_deterministic_witness :
    plan [githubCredential] deployJob [] none =
      plan [githubCredential] deployJob [] none :=
  plan_deterministic [githubCredential] [githubCredential] deployJob deployJob
    [] [] none none rfl rfl rfl rfl

/-- C10: the source document's own declaration is well-formed: its three
credential ids are pairwise distinct, and the credential the pipeline job
selects is the id of a credential defined earlier in the document, so there
is no dangling credential reference. -/
theorem document_declaration_wellformed :
    (documentCredentials.map (fun c => c.id)).Nodup ∧
      documentJob.credentialId ∈ documentCredentials.map (fun c => c.id) := by
  decide

/-- A successful `plan` is the credential operations in declaration order
followed by the single job operation. -/
theorem plan_ok_shape {dc : List CredentialSpec} {dj : PipelineJobSpec}
    {oc : List ObservedCredential} {oj : Option ObservedJob}
    {p : ReconciliationPlan} (hp : plan dc dj oc oj = .ok p) :
    p = planCreds dc oc ++ [.jobOp dj (planJob dj oj)] := by
  unfold plan at hp
  cases hv : validateReferences dc dj with
  | error e => rw [hv] at hp; cases hp
  | ok u => rw [hv] at hp; cases hp; rfl

/-- A successful `plan` means the reference check passed. -/
theorem plan_ok_refs {dc : List CredentialSpec} {dj : PipelineJobSpec}
    {oc : List ObservedCredential} {oj : Option ObservedJob}
    {p : ReconciliationPlan} (hp : plan dc dj oc oj = .ok p) :
    validateReferences dc dj = .ok () := by
  unfold plan at hp
  cases hv : validateReferences dc dj with
  | error e => rw [hv] at hp; cases hp
  | ok u => rfl

theorem planCredential_eq_Create {c : CredentialSpec} {oc : List ObservedCredential}
    (h : ∀ o ∈ oc, o.id ≠ c.id) : planCredential c oc = .Create := by
  unfold planCredential
  have hf : oc.find? (fun o => o.id == c.id) = none :=
    List.find?_eq_none.mpr (fun o ho => by simpa using h o ho)
  rw [hf]

theorem planCredential_eq_Update {c : CredentialSpec} {oc : List ObservedCredential}
    (hnd : (oc.map (fun o => o.id)).Nodup)
    (h : ∃ o ∈ oc, o.id = c.id ∧ o.mismatch = true) :
    planCredential c oc = .Update := by
  obtain ⟨o, ho, hid, hm⟩ := h
  unfold planCredential
  cases hf : oc.find? (fun o => o.id == c.id) with
  | none =>
    exact absurd (by simpa using hid) (List.find?_eq_none.mp hf o ho)
  | some o' =>
    have ho' : o' ∈ oc := List.mem_of_find?_eq_some hf
    have hid' : o'.id = c.id := by simpa using List.find?_some hf
    have heq : o = o' :=
      List.inj_on_of_nodup_map hnd ho ho' (hid.trans hid'.symm)
    rw [← heq]; simp [hm]

theorem planCredential_eq_Skip {c : CredentialSpec} {oc : List ObservedCredential}
    (hnd : (oc.map (fun o => o.id)).Nodup)
    (h : ∃ o ∈ oc, o.id = c.id ∧ o.mismatch = false) :
    planCredential c oc = .Skip := by
  obtain ⟨o, ho, hid, hm⟩ := h
  unfold planCredential
  cases hf : oc.find? (fun o => o.id == c.id) with
  | none =>
    exact absurd (by simpa using hid) (List.find?_eq_none.mp hf o ho)
  | some o' =>
    have ho' : o' ∈ oc := List.mem_of_find?_eq_some hf
    have hid' : o'.id = c.id := by simpa using List.find?_some hf
    have heq : o = o' :=
      List.inj_on_of_nodup_map hnd ho ho' (hid.trans hid'.symm)
    rw [← heq]; simp [hm]

theorem planJob_eq_Create {dj : PipelineJobSpec} {oj : Option ObservedJob}
    (h : ∀ o, oj = some o → o.name ≠ dj.name) : planJob dj oj = .Create := by
  cases oj with
  | none => rfl
  | some o => simp [planJob, h o rfl]

theorem planJob_eq_Update {dj : PipelineJobSpec} {oj : Option ObservedJob}
    (h : ∃ o, oj = some o ∧ o.name = dj.name ∧
      (o.repositoryUrl ≠ dj.repositoryUrl ∨ o.branch ≠ dj.branch ∨
        o.scriptPath ≠ dj.scriptPath)) :
    planJob dj oj = .Update := by
  obtain ⟨o, hoj, hn, hdiff⟩ := h
  subst hoj
  have hm : jobMatches dj o = false := by
    rcases hdiff with h1 | h1 | h1 <;> simp [jobMatches, h1]
  simp [planJob, hn, hm]

theorem planJob_eq_Skip {dj : PipelineJobSpec} {oj : Option ObservedJob}
    (h : ∃ o, oj = some o ∧ o.name = dj.name ∧ o.repositoryUrl = dj.repositoryUrl ∧
      o.branch = dj.branch ∧ o.scriptPath = dj.scriptPath) :
    planJob dj oj = .Skip := by
  obtain ⟨o, hoj, hn, h1, h2, h3⟩ := h
  subst hoj
  have hm : jobMatches dj o = true := by simp [jobMatches, h1, h2, h3]
  simp [planJob, hn, hm]

theorem credOp_mem_planCreds {dc : List CredentialSpec}
    {oc : List ObservedCredential} {c : CredentialSpec} (hc : c ∈ dc) :
    PlanEntry.credOp c (planCredential c oc) ∈ planCreds dc oc :=
  List.mem_map.mpr ⟨c, hc, rfl⟩

/-- C1: every successful plan assigns operations as specified: a declared
credential gets Create when no observed credential shares its id, Update
when one exists with matching id but a reported mismatch, Skip otherwise;
the job gets Create when no observed job has its name, Update when one
exists with differing repositoryUrl/branch/scriptPath, Skip otherwise.
(Observed credential ids are unique in the target system.) -/
theorem plan_assigns_operations (dc : List CredentialSpec) (dj : PipelineJobSpec)
    (oc : List ObservedCredential) (oj : Option ObservedJob)
    (p : ReconciliationPlan) (hp : plan dc dj oc oj = .ok p)
    (hnd : (oc.map (fun o => o.id)).Nodup) :
    (∀ c ∈ dc,
      ((∀ o ∈ oc, o.id ≠ c.id) → PlanEntry.credOp c .Create ∈ p) ∧
      ((∃ o ∈ oc, o.id = c.id ∧ o.mismatch = true) →
        PlanEntry.credOp c .Update ∈ p) ∧
      ((∃ o ∈ oc, o.id = c.id ∧ o.mismatch = false) →
        PlanEntry.credOp c .Skip ∈ p)) ∧
    (((∀ o, oj = some o → o.name ≠ dj.name) → PlanEntry.jobOp dj .Create ∈ p) ∧
     ((∃ o, oj = some o ∧ o.name = dj.name ∧
        (o.repositoryUrl ≠ dj.repositoryUrl ∨ o.branch ≠ dj.branch ∨
          o.scriptPath ≠ dj.scriptPath)) → PlanEntry.jobOp dj .Update ∈ p) ∧
     ((∃ o, oj = some o ∧ o.name = dj.name ∧ o.repositoryUrl = dj.repositoryUrl ∧
        o.branch = dj.branch ∧ o.scriptPath = dj.scriptPath) →
        PlanEntry.jobOp dj .Skip ∈ p)) := by
  have hshape := plan_ok_shape hp
  subst hshape
  constructor
  · intro c hc
    refine ⟨fun h => ?_, fun h => ?_, fun h => ?_⟩
    · exact List.mem_append_left _
        (planCredential_eq_Create h ▸ credOp_mem_planCreds hc)
    · exact List.mem_append_left _
        (planCredential_eq_Update hnd h ▸ credOp_mem_planCreds hc)
    · exact List.mem_append_left _
        (planCredential_eq_Skip hnd h ▸ credOp_mem_planCreds hc)
  · refine ⟨fun h => ?_, fun h => ?_, fun h => ?_⟩
    · exact List.mem_append_right _
        (planJob_eq_Create h ▸ List.mem_singleton_self _)
    · exact List.mem_append_right _
        (planJob_eq_Update h ▸ List.mem_singleton_self _)
    · exact List.mem_append_right _
        (planJob_eq_Skip h ▸ List.mem_singleton_self _)

/-- Witness for C1 at the scenario declaration against an empty observed
state. -/
theorem plan_assigns_operations_witness :
    (∀ c ∈ [githubCredential],
      ((∀ o ∈ ([] : List ObservedCredential), o.id ≠ c.id) →
        PlanEntry.credOp c .Create ∈
          [PlanEntry.credOp githubCredential .Create,
           PlanEntry.jobOp deployJob .Create]) ∧
      ((∃ o ∈ ([] : List ObservedCredential), o.id = c.id ∧ o.mismatch = true) →
        PlanEntry.credOp c .Update ∈
          [PlanEntry.credOp githubCredential .Create,
           PlanEntry.jobOp deployJob .Create]) ∧
      ((∃ o ∈ ([] : List ObservedCredential), o.id = c.id ∧ o.mismatch = false) →
        PlanEntry.credOp c .Skip ∈
          [PlanEntry.credOp githubCredential .Create,
           PlanEntry.jobOp deployJob .Create])) ∧
    (((∀ o, (none : Option ObservedJob) = some o → o.name ≠ deployJob.name) →
        PlanEntry.jobOp deployJob .Create ∈
          [PlanEntry.credOp githubCredential .Create,
           PlanEntry.jobOp deployJob .Create]) ∧
     ((∃ o, (none : Option ObservedJob) = some o ∧ o.name = deployJob.name ∧
        (o.repositoryUrl ≠ deployJob.repositoryUrl ∨ o.branch ≠ deployJob.branch ∨
          o.scriptPath ≠ deployJob.scriptPath)) →
        PlanEntry.jobOp deployJob .Update ∈
          [PlanEntry.credOp githubCredential .Create,
           PlanEntry.jobOp deployJob .Create]) ∧
     ((∃ o, (none : Option ObservedJob) = some o ∧ o.name = deployJob.name ∧
        o.repositoryUrl = deployJob.repositoryUrl ∧ o.branch = deployJob.branch ∧
        o.scriptPath = deployJob.scriptPath) →
        PlanEntry.jobOp deployJob .Skip ∈
          [PlanEntry.credOp githubCredential .Create,
           PlanEntry.jobOp deployJob .Create])) :=
  plan_assigns_operations [githubCredential] deployJob [] none
    [PlanEntry.credOp githubCredential .Create, PlanEntry.jobOp deployJob .Create]
    (by rfl) (by decide)

/-- C5: in every plan the Reconciler produces, the job operation is the last
entry and every other entry is a credential operation, so all Create/Update
operations on credentials appear strictly before the job operation. -/
theorem plan_credentials_before_job (dc : List CredentialSpec)
    (dj : PipelineJobSpec) (oc : List ObservedCredential)
    (oj : Option ObservedJob) (p : ReconciliationPlan)
    (hp : plan dc dj oc oj = .ok p) :
    (∃ js jop, p.getLast? = some (.jobOp js jop)) ∧
      ∀ e ∈ p.dropLast, isCredOp e := by
  have hshape := plan_ok_shape hp
  subst hshape
  constructor
  · exact ⟨dj, planJob dj oj, List.getLast?_concat _⟩
  · intro e he
    rw [List.dropLast_concat] at he
    obtain ⟨c, _, rfl⟩ := List.mem_map.mp he
    trivial

/-- Witness for C5 at the scenario declaration against an empty observed
state. -/
theorem plan_credentials_before_job_witness :
    (∃ js jop,
      ([PlanEntry.credOp githubCredential .Create,
        PlanEntry.jobOp deployJob .Create] : ReconciliationPlan).getLast? =
        some (.jobOp js jop)) ∧
      ∀ e ∈ ([PlanEntry.credOp githubCredential .Create,
        PlanEntry.jobOp deployJob .Create] : ReconciliationPlan).dropLast,
        isCredOp e :=
  plan_credentials_before_job [githubCredential] deployJob [] none
    [PlanEntry.credOp githubCredential .Create, PlanEntry.jobOp deployJob .Create]
    (by rfl)

theorem find?_filter_comm {α : Type} (l : List α) (q p : α → Bool) :
    (l.filter q).find? p = l.find? (fun a => q a && p a) := by
  induction l with
  | nil => rfl
  | cons x xs ih =>
    by_cases hq : q x
    · by_cases hp : p x <;> simp [List.filter_cons, hq, hp, ih]
    · simp [List.filter_cons, hq, ih]

/-- After the adapter overwrites credential `c`, any declared credential that
shares `c`'s id, or that was already in sync, plans to Skip. -/
theorem planCredential_applyCredential {c' c : CredentialSpec} {s : ObservedState}
    (h : c'.id = c.id ∨ planCredential c' s.creds = .Skip) :
    planCredential c' (applyCredential s c).creds = .Skip := by
  by_cases hid : c'.id = c.id
  · unfold planCredential applyCredential
    rw [List.find?_append]
    have h1 : (s.creds.filter (fun o => o.id != c.id)).find?
        (fun o => o.id == c'.id) = none := by
      rw [List.find?_eq_none]
      intro x hx hpx
      rw [List.mem_filter] at hx
      have hxid : x.id = c.id := hid ▸ (by simpa using hpx)
      simp [hxid] at hx
    rw [h1]
    simp [hid]
  · rcases h with h | h
    · exact absurd h hid
    · unfold planCredential at h
      cases hf : s.creds.find? (fun o => o.id == c'.id) with
      | none => rw [hf] at h; simp at h
      | some o =>
        rw [hf] at h
        have hm : o.mismatch = false := by
          cases hmo : o.mismatch
          · rfl
          · simp [hmo] at h
        unfold planCredential applyCredential
        rw [List.find?_append, find?_filter_comm]
        have hpred : (fun o : ObservedCredential => (o.id != c.id) && (o.id == c'.id))
            = (fun o : ObservedCredential => o.id == c'.id) := by
          funext x
          by_cases hx : x.id = c'.id
          · have hxne : x.id ≠ c.id := by rw [hx]; exact hid
            simp [hx, hxne, hid]
          · simp [hx]
        rw [hpred, hf]
        simp [hm]

/-- Executing any plan entry preserves a credential's Skip status. -/
theorem applyEntry_preserves_skip {c' : CredentialSpec} {s : ObservedState}
    (e : PlanEntry) (h : planCredential c' s.creds = .Skip) :
    planCredential c' (applyEntry s e).creds = .Skip := by
  cases e with
  | credOp c op =>
    cases op with
    | Skip => exact h
    | Create => exact planCredential_applyCredential (Or.inr h)
    | Update => exact planCredential_applyCredential (Or.inr h)
  | jobOp j op =>
    cases op with
    | Skip => exact h
    | Create => exact h
    | Update => exact h

/-- Executing a list of plan entries preserves a credential's Skip status. -/
theorem foldl_preserves_skip (entries : List PlanEntry) {c' : CredentialSpec}
    (s : ObservedState) (h : planCredential c' s.creds = .Skip) :
    planCredential c' (entries.foldl applyEntry s).creds = .Skip := by
  induction entries generalizing s with
  | nil => exact h
  | cons e rest ih => exact ih _ (applyEntry_preserves_skip e h)

/-- Executing the plan brings every credential it mentions into sync: after
the fold, each one plans to Skip (Skip entries must have been in sync at the
start). -/
theorem foldl_establishes_skip (entries : List PlanEntry) (s : ObservedState)
    (H : ∀ c op, PlanEntry.credOp c op ∈ entries → op = .Skip →
      planCredential c s.creds = .Skip) :
    ∀ c op, PlanEntry.credOp c op ∈ entries →
      planCredential c (entries.foldl applyEntry s).creds = .Skip := by
  induction entries generalizing s with
  | nil => intro c op hmem; cases hmem
  | cons e rest ih =>
    intro c op hmem
    rw [List.foldl_cons]
    have Hrest : ∀ c2 op2, PlanEntry.credOp c2 op2 ∈ rest → op2 = .Skip →
        planCredential c2 (applyEntry s e).creds = .Skip := by
      intro c2 op2 hm ho
      exact applyEntry_preserves_skip e (H c2 op2 (List.mem_cons_of_mem _ hm) ho)
    rcases List.mem_cons.mp hmem with heq | hm
    · rw [← heq]
      cases op with
      | Skip =>
        have hs : planCredential c s.creds = .Skip :=
          H c .Skip (heq ▸ List.mem_cons_self _ _) rfl
        exact foldl_preserves_skip rest s hs
      | Create =>
        exact foldl_preserves_skip rest _
          (planCredential_applyCredential (Or.inl rfl))
      | Update =>
        exact foldl_preserves_skip rest _
          (planCredential_applyCredential (Or.inl rfl))
    · exact ih (applyEntry s e) Hrest c op hm

/-- The credential portion of a plan never touches the observed job. -/
theorem foldl_planCreds_job (dc : List CredentialSpec)
    (oc : List ObservedCredential) (s : ObservedState) :
    (((planCreds dc oc).foldl applyEntry s)).job = s.job := by
  induction dc generalizing s with
  | nil => rfl
  | cons c rest ih =>
    have hcons : planCreds (c :: rest) oc
        = .credOp c (planCredential c oc) :: planCreds rest oc := rfl
    rw [hcons, List.foldl_cons, ih]
    cases planCredential c oc <;> rfl

/-- Executing a job entry never touches the observed credentials. -/
theorem applyEntry_jobOp_creds (s : ObservedState) (j : PipelineJobSpec)
    (op : OpKind) : (applyEntry s (.jobOp j op)).creds = s.creds := by
  cases op <;> rfl

/-- After the adapter applies the declared job, the job plans to Skip. -/
theorem planJob_applyJob (dj : PipelineJobSpec) (s : ObservedState) :
    planJob dj (applyJob s dj).job = .Skip := by
  show planJob dj (some (observedOfJob dj)) = .Skip
  simp [planJob, observedOfJob, jobMatches]

/-- C3: plan-then-apply is idempotent: applying a produced plan to the
observed state and re-planning the same declaration against the resulting
state yields a plan in which every operation is Skip. -/
theorem plan_apply_idempotent (dc : List CredentialSpec) (dj : PipelineJobSpec)
    (oc : List ObservedCredential) (oj : Option ObservedJob)
    (p : ReconciliationPlan) (hp : plan dc dj oc oj = .ok p) :
    ∃ p', plan dc dj (applyPlan p ⟨oc, oj⟩).creds (applyPlan p ⟨oc, oj⟩).job
        = .ok p' ∧ ∀ e ∈ p', entryOp e = .Skip := by
  have hrefs := plan_ok_refs hp
  have hshape := plan_ok_shape hp
  subst hshape
  have happly : applyPlan (planCreds dc oc ++ [PlanEntry.jobOp dj (planJob dj oj)])
      ⟨oc, oj⟩
      = applyEntry ((planCreds dc oc).foldl applyEntry ⟨oc, oj⟩)
          (PlanEntry.jobOp dj (planJob dj oj)) := by
    rw [applyPlan, List.foldl_append]
    rfl
  have hcredskip : ∀ c ∈ dc,
      planCredential c (applyPlan (planCreds dc oc
        ++ [PlanEntry.jobOp dj (planJob dj oj)]) ⟨oc, oj⟩).creds = .Skip := by
    intro c hc
    rw [happly, applyEntry_jobOp_creds]
    refine foldl_establishes_skip (planCreds dc oc) ⟨oc, oj⟩ ?_ c
      (planCredential c oc) (credOp_mem_planCreds hc)
    intro c2 op2 hm ho
    obtain ⟨c0, _, heq⟩ := List.mem_map.mp hm
    obtain ⟨h1, h2⟩ := PlanEntry.credOp.inj heq
    subst ho
    show planCredential c2 oc = .Skip
    rw [← h1]
    exact h2
  have hjobskip : planJob dj (applyPlan (planCreds dc oc
      ++ [PlanEntry.jobOp dj (planJob dj oj)]) ⟨oc, oj⟩).job = .Skip := by
    rw [happly]
    cases hop : planJob dj oj with
    | Skip =>
      show planJob dj ((planCreds dc oc).foldl applyEntry ⟨oc, oj⟩).job = .Skip
      rw [foldl_planCreds_job]
      exact hop
    | Create => exact planJob_applyJob dj _
    | Update => exact planJob_applyJob dj _
  refine ⟨planCreds dc (applyPlan (planCreds dc oc
      ++ [PlanEntry.jobOp dj (planJob dj oj)]) ⟨oc, oj⟩).creds
      ++ [PlanEntry.jobOp dj (planJob dj (applyPlan (planCreds dc oc
        ++ [PlanEntry.jobOp dj (planJob dj oj)]) ⟨oc, oj⟩).job)], ?_, ?_⟩
  · unfold plan
    rw [hrefs]
  · intro e he
    rcases List.mem_append.mp he with hm | hm
    · obtain ⟨c0, hc0, heq⟩ := List.mem_map.mp hm
      rw [← heq]
      exact hcredskip c0 hc0
    · rw [List.mem_singleton.mp hm]
      exact hjobskip

/-- Witness for C3 at the scenario declaration against an empty observed
state. -/
theorem plan_apply_idempotent_witness :
    ∃ p', plan [githubCredential] deployJob
        (applyPlan [PlanEntry.credOp githubCredential .Create,
          PlanEntry.jobOp deployJob .Create] ⟨[], none⟩).creds
        (applyPlan [PlanEntry.credOp githubCredential .Create,
          PlanEntry.jobOp deployJob .Create] ⟨[], none⟩).job
      = .ok p' ∧ ∀ e ∈ p', entryOp e = .Skip :=
  plan_apply_idempotent [githubCredential] deployJob [] none
    [PlanEntry.credOp githubCredential .Create, PlanEntry.jobOp deployJob .Create]
    (by rfl)

/-- C8: the Declaration Loader either returns the validated declaration, or
fails with a single ValidationError whose violation list contains exactly
the violated invariants (empty branch, empty scriptPath); it succeeds
exactly when no invariant is violated. -/
theorem loader_validates_all (dc : List CredentialSpec) (dj : PipelineJobSpec) :
    (loadDeclaration dc dj = .ok (dc, dj) ∨
      ∃ vs, vs ≠ [] ∧ loadDeclaration dc dj = .error (.validationError vs) ∧
        (dj.branch = "" ↔ "branch is empty" ∈ vs) ∧
        (dj.scriptPath = "" ↔ "scriptPath is empty" ∈ vs)) ∧
    (loadDeclaration dc dj = .ok (dc, dj) ↔
      dj.branch ≠ "" ∧ dj.scriptPath ≠ "") := by
  have hload : loadDeclaration dc dj
      = (match declarationViolations dj with
        | [] => .ok (dc, dj)
        | vs => .error (.validationError vs)) := rfl
  by_cases hb : dj.branch = "" <;> by_cases hs : dj.scriptPath = ""
  · have hv : declarationViolations dj = ["branch is empty", "scriptPath is empty"] := by
      simp [declarationViolations, hb, hs]
    constructor
    · refine Or.inr ⟨["branch is empty", "scriptPath is empty"], by simp, ?_, ?_, ?_⟩
      · rw [hload, hv]
      · exact ⟨fun _ => by simp, fun _ => hb⟩
      · exact ⟨fun _ => by simp, fun _ => hs⟩
    · rw [hload, hv]
      simp [hb]
  · have hv : declarationViolations dj = ["branch is empty"] := by
      simp [declarationViolations, hb, hs]
    constructor
    · refine Or.inr ⟨["branch is empty"], by simp, ?_, ?_, ?_⟩
      · rw [hload, hv]
      · exact ⟨fun _ => by simp, fun _ => hb⟩
      · exact ⟨fun h => absurd h hs, fun h => by simp at h⟩
    · rw [hload, hv]
      simp [hb]
  · have hv : declarationViolations dj = ["scriptPath is empty"] := by
      simp [declarationViolations, hb, hs]
    constructor
    · refine Or.inr ⟨["scriptPath is empty"], by simp, ?_, ?_, ?_⟩
      · rw [hload, hv]
      · exact ⟨fun h => absurd h hb, fun h => by simp at h⟩
      · exact ⟨fun _ => by simp, fun _ => hs⟩
    · rw [hload, hv]
      simp [hb, hs]
  · have hv : declarationViolations dj = [] := by
      simp [declarationViolations, hb, hs]
    constructor
    · exact Or.inl (by rw [hload, hv])
    · rw [hload, hv]
      simp [hb, hs]

/-- Witness for C8 at the scenario declaration with an empty branch. -/
theorem loader_validates_all_witness :
    (loadDeclaration [githubCredential] emptyBranchJob
        = .ok ([githubCredential], emptyBranchJob) ∨
      ∃ vs, vs ≠ [] ∧ loadDeclaration [githubCredential] emptyBranchJob
          = .error (.validationError vs) ∧
        (emptyBranchJob.branch = "" ↔ "branch is empty" ∈ vs) ∧
        (emptyBranchJob.scriptPath = "" ↔ "scriptPath is empty" ∈ vs)) ∧
    (loadDeclaration [githubCredential] emptyBranchJob
        = .ok ([githubCredential], emptyBranchJob) ↔
      emptyBranchJob.branch ≠ "" ∧ emptyBranchJob.scriptPath ≠ "") :=
  loader_validates_all [githubCredential] emptyBranchJob

/-- C4: a declaration whose job credentialId matches no declared credential
makes the Reconciler fail with ReferenceError: `plan` produces no plan at
all, and a full (otherwise valid) run fails with ReferenceError leaving the
observed state untouched; conversely, when some declared credential carries
the referenced id, reference validation succeeds. -/
theorem dangling_reference_fails (dc : List CredentialSpec)
    (dj : PipelineJobSpec) (caps : List String) (ok : PlanEntry → Bool)
    (s : ObservedState) :
    ((∀ c ∈ dc, c.id ≠ dj.credentialId) →
      (∀ oc oj, plan dc dj oc oj = .error .referenceError) ∧
      (dj.branch ≠ "" → dj.scriptPath ≠ "" →
        validateCapabilities dj caps = .ok () →
        run dc dj caps ok s = (.error .referenceError, s))) ∧
    ((∃ c ∈ dc, c.id = dj.credentialId) →
      validateReferences dc dj = .ok ()) := by
  constructor
  · intro hno
    have hval : validateReferences dc dj = .error .referenceError := by
      have hany : ¬(dc.any (fun c => c.id == dj.credentialId) = true) := by
        simp only [List.any_eq_true, beq_iff_eq]
        rintro ⟨c, hc, hbe⟩
        exact hno c hc hbe
      unfold validateReferences
      rw [if_neg hany]
    have hplanerr : ∀ oc oj, plan dc dj oc oj = .error .referenceError := by
      intro oc oj
      unfold plan
      rw [hval]
    refine ⟨hplanerr, fun hb hs hcap => ?_⟩
    have hldok : loadDeclaration dc dj = .ok (dc, dj) := by
      unfold loadDeclaration
      simp [declarationViolations, hb, hs]
    simp [run, hldok, hcap, hplanerr]
  · rintro ⟨c, hc, hid⟩
    unfold validateReferences
    rw [if_pos (List.any_eq_true.mpr ⟨c, hc, by simpa using hid⟩)]

/-- Witness for C4: the scenario job with no declared credentials fails the
whole run with ReferenceError and leaves the observed state unchanged;
with the github credential declared, reference validation passes. -/
theorem dangling_reference_fails_witness :
    run [] deployJob [] (fun _ => true) ⟨[], none⟩
        = (.error .referenceError, ⟨[], none⟩) ∧
      validateReferences [githubCredential] deployJob = .ok () :=
  ⟨((dangling_reference_fails [] deployJob [] (fun _ => true) ⟨[], none⟩).1
      (fun c hc => nomatch hc)).2 (by decide) (by decide) (by rfl),
   (dangling_reference_fails [githubCredential] deployJob [] (fun _ => true)
      ⟨[], none⟩).2 ⟨githubCredential, List.mem_singleton_self _, rfl⟩⟩

/-- The apply phase can only fail with RemoteError or PartialApplyError,
never with a pre-flight error. -/
theorem applyLoop_no_preflight (ok : PlanEntry → Bool) :
    ∀ (pending committed : List PlanEntry) (s : ObservedState) (e : ReconError)
      (s' : ObservedState), applyLoop ok pending committed s = (.error e, s') →
      ¬ preflightError e := by
  intro pending
  induction pending with
  | nil =>
    intro committed s e s' h
    simp [applyLoop] at h
  | cons x rest ih =>
    intro committed s e s' h
    unfold applyLoop at h
    by_cases h1 : entryOp x = .Skip
    · rw [if_pos h1] at h
      exact ih _ _ _ _ h
    · rw [if_neg h1] at h
      by_cases h2 : ok x = true
      · rw [if_pos h2] at h
        exact ih _ _ _ _ h
      · rw [if_neg h2] at h
        by_cases h3 : committed.any (fun c => entryOp c != .Skip) = true
        · rw [if_pos h3] at h
          injection h with ha hb
          injection ha with hc
          rw [← hc]
          simp [preflightError]
        · rw [if_neg h3] at h
          injection h with ha hb
          injection ha with hc
          rw [← hc]
          simp [preflightError]

/-- C7: whenever a run fails with a pre-flight error (ValidationError,
ReferenceError or CapabilityError), no remote mutation has happened: the
observed state returned by the run equals the initial observed state. -/
theorem preflight_errors_atomic (dc : List CredentialSpec)
    (dj : PipelineJobSpec) (caps : List String) (ok : PlanEntry → Bool)
    (s : ObservedState) (e : ReconError) (s' : ObservedState)
    (h : run dc dj caps ok s = (.error e, s')) (hpre : preflightError e) :
    s' = s := by
  cases hl : loadDeclaration dc dj with
  | error e1 =>
    simp only [run, hl] at h
    injection h with h1 h2
    exact h2.symm
  | ok pr =>
    cases hc : validateCapabilities dj caps with
    | error e2 =>
      simp only [run, hl, hc] at h
      injection h with h1 h2
      exact h2.symm
    | ok u =>
      cases hpl : plan dc dj s.creds s.job with
      | error e3 =>
        simp only [run, hl, hc, hpl] at h
        injection h with h1 h2
        exact h2.symm
      | ok p =>
        cases hal : applyLoop ok p [] s with
        | mk r s2 =>
          cases r with
          | ok u2 =>
            simp only [run, hl, hc, hpl, hal] at h
            injection h with h1 h2
            exact Except.noConfusion h1
          | error e4 =>
            simp only [run, hl, hc, hpl, hal] at h
            injection h with h1 h2
            injection h1 with h3
            exact absurd hpre (h3 ▸ applyLoop_no_preflight ok p [] s e4 s2 hal)

/-- Witness for C7: the dangling-reference run fails pre-flight and the
observed state is unchanged. -/
theorem preflight_errors_atomic_witness :
    (⟨[], none⟩ : ObservedState) = ⟨[], none⟩ :=
  preflight_errors_atomic [] deployJob [] (fun _ => true) ⟨[], none⟩
    .referenceError ⟨[], none⟩ (by rfl) (by trivial)

/-- PartialApplyError is reported only when a mutating (non-Skip) operation
already committed and later operations remain pending. -/
theorem applyLoop_partial_committed (ok : PlanEntry → Bool) :
    ∀ (pending committed : List PlanEntry) (s : ObservedState)
      (com pen : List PlanEntry) (s' : ObservedState),
      applyLoop ok pending committed s = (.error (.partialApplyError com pen), s') →
      (∃ e ∈ com, entryOp e ≠ .Skip) ∧ pen ≠ [] := by
  intro pending
  induction pending with
  | nil =>
    intro committed s com pen s' h
    simp [applyLoop] at h
  | cons x rest ih =>
    intro committed s com pen s' h
    unfold applyLoop at h
    by_cases h1 : entryOp x = .Skip
    · rw [if_pos h1] at h
      exact ih _ _ _ _ _ h
    · rw [if_neg h1] at h
      by_cases h2 : ok x = true
      · rw [if_pos h2] at h
        exact ih _ _ _ _ _ h
      · rw [if_neg h2] at h
        by_cases h3 : committed.any (fun c => entryOp c != .Skip) = true
        · rw [if_pos h3] at h
          injection h with ha hb
          injection ha with hc
          obtain ⟨hcom, hpen⟩ := ReconError.partialApplyError.inj hc
          constructor
          · obtain ⟨e0, he0, hne⟩ := List.any_eq_true.mp h3
            exact ⟨e0, hcom ▸ he0, by simpa using hne⟩
          · rw [← hpen]
            simp
        · rw [if_neg h3] at h
          injection h with ha hb
          injection ha with hc
          exact ReconError.noConfusion hc

/-- The Loader fails only with ValidationError. -/
theorem loadDeclaration_error_kind {dc : List CredentialSpec}
    {dj : PipelineJobSpec} {e : ReconError}
    (h : loadDeclaration dc dj = .error e) : ∃ vs, e = .validationError vs := by
  unfold loadDeclaration at h
  cases hv : declarationViolations dj with
  | nil => rw [hv] at h; exact Except.noConfusion h
  | cons a as => rw [hv] at h; exact ⟨a :: as, (Except.error.inj h).symm⟩

/-- The capability check fails only with CapabilityError. -/
theorem validateCapabilities_error_kind {dj : PipelineJobSpec}
    {caps : List String} {e : ReconError}
    (h : validateCapabilities dj caps = .error e) : e = .capabilityError := by
  unfold validateCapabilities at h
  by_cases hb : (dj.requiredCapabilities.all fun c => caps.contains c) = true
  · rw [if_pos hb] at h; exact Except.noConfusion h
  · rw [if_neg hb] at h; exact (Except.error.inj h).symm

/-- The Reconciler fails only with ReferenceError. -/
theorem plan_error_kind {dc : List CredentialSpec} {dj : PipelineJobSpec}
    {oc : List ObservedCredential} {oj : Option ObservedJob} {e : ReconError}
    (h : plan dc dj oc oj = .error e) : e = .referenceError := by
  unfold plan at h
  cases hv : validateReferences dc dj with
  | error e2 =>
    rw [hv] at h
    have he2 : e2 = e := Except.error.inj h
    unfold validateReferences at hv
    by_cases hb : (dc.any fun c => c.id == dj.credentialId) = true
    · rw [if_pos hb] at hv; exact Except.noConfusion hv
    · rw [if_neg hb] at hv
      rw [← he2, ← Except.error.inj hv]
  | ok u => rw [hv] at h; exact Except.noConfusion h

/-- Exit codes classify run results: 0 is success, 1 is validation or
reference failure, 2 is partial application. -/
theorem exitCode_classifies (r : Except ReconError ReconciliationPlan) :
    (exitCode r = 0 ↔ ∃ p, r = .ok p) ∧
    (exitCode r = 1 ↔ ((∃ vs, r = .error (.validationError vs)) ∨
      r = .error .referenceError)) ∧
    (exitCode r = 2 ↔ ∃ com pen, r = .error (.partialApplyError com pen)) := by
  cases r with
  | ok p => simp [exitCode]
  | error e => cases e <;> simp [exitCode]

/-- C9: for every invocation of the run, the exit code is 0 exactly on full
success, 1 exactly on a validation or reference error, and 2 exactly on a
partial application (in which case a mutating operation committed and later
operations were left pending). -/
theorem run_exit_codes (dc : List CredentialSpec) (dj : PipelineJobSpec)
    (caps : List String) (ok : PlanEntry → Bool) (s : ObservedState) :
    (exitCode (run dc dj caps ok s).1 = 0 ↔
      ∃ p, (run dc dj caps ok s).1 = .ok p) ∧
    (exitCode (run dc dj caps ok s).1 = 1 ↔
      ((∃ vs, (run dc dj caps ok s).1 = .error (.validationError vs)) ∨
        (run dc dj caps ok s).1 = .error .referenceError)) ∧
    (exitCode (run dc dj caps ok s).1 = 2 ↔
      ∃ com pen, (run dc dj caps ok s).1 = .error (.partialApplyError com pen)) ∧
    (∀ com pen, (run dc dj caps ok s).1 = .error (.partialApplyError com pen) →
      (∃ e ∈ com, entryOp e ≠ .Skip) ∧ pen ≠ []) := by
  obtain ⟨hc0, hc1, hc2⟩ := exitCode_classifies (run dc dj caps ok s).1
  refine ⟨hc0, hc1, hc2, ?_⟩
  intro com pen h
  cases hl : loadDeclaration dc dj with
  | error e1 =>
    simp only [run, hl] at h
    obtain ⟨vs, hvs⟩ := loadDeclaration_error_kind hl
    rw [hvs] at h
    have := Except.error.inj h
    simp at this
  | ok pr =>
    cases hc : validateCapabilities dj caps with
    | error e2 =>
      simp only [run, hl, hc] at h
      rw [validateCapabilities_error_kind hc] at h
      have := Except.error.inj h
      simp at this
    | ok u =>
      cases hpl : plan dc dj s.creds s.job with
      | error e3 =>
        simp only [run, hl, hc, hpl] at h
        rw [plan_error_kind hpl] at h
        have := Except.error.inj h
        simp at this
      | ok p =>
        cases hal : applyLoop ok p [] s with
        | mk r s2 =>
          cases r with
          | ok u2 =>
            simp only [run, hl, hc, hpl, hal] at h
            exact Except.noConfusion h
          | error e4 =>
            simp only [run, hl, hc, hpl, hal] at h
            have h4 := Except.error.inj h
            exact applyLoop_partial_committed ok p [] s com pen s2
              (by rw [hal, h4])

/-- Witness for C9 at the scenario run against an empty observed state with
an always-succeeding adapter. -/
theorem run_exit_codes_witness :
    (exitCode (run [githubCredential] deployJob [] (fun _ => true)
        ⟨[], none⟩).1 = 0 ↔
      ∃ p, (run [githubCredential] deployJob [] (fun _ => true)
        ⟨[], none⟩).1 = .ok p) ∧
    (exitCode (run [githubCredential] deployJob [] (fun _ => true)
        ⟨[], none⟩).1 = 1 ↔
      ((∃ vs, (run [githubCredential] deployJob [] (fun _ => true)
          ⟨[], none⟩).1 = .error (.validationError vs)) ∨
        (run [githubCredential] deployJob [] (fun _ => true)
          ⟨[], none⟩).1 = .error .referenceError)) ∧
    (exitCode (run [githubCredential] deployJob [] (fun _ => true)
        ⟨[], none⟩).1 = 2 ↔
      ∃ com pen, (run [githubCredential] deployJob [] (fun _ => true)
        ⟨[], none⟩).1 = .error (.partialApplyError com pen)) ∧
    (∀ com pen, (run [githubCredential] deployJob [] (fun _ => true)
        ⟨[], none⟩).1 = .error (.partialApplyError com pen) →
      (∃ e ∈ com, entryOp e ≠ .Skip) ∧ pen ≠ []) :=
  run_exit_codes [githubCredential] deployJob [] (fun _ => true) ⟨[], none⟩
